import Mathlib

/-
Shallow embedding of the vocabulary-learning core (core.py).

Modelling conventions:
* Python floats are modelled as rationals (ℚ).
* Calendar dates are modelled as integer day numbers (ℤ); ISO-string
  comparison on YYYY-MM-DD dates agrees with the integer order.
* The vocabulary dict is an insertion-ordered association list
  `List (String × Entry)`; Python dicts preserve insertion order and
  have unique keys.
* Python's `round` is round-half-to-even (banker's rounding), embedded
  as `pyRound`.
-/

namespace Vocab

/-- One element of an entry's review history; the scoring code reads only
the `correct` flag (`h.get("correct", True)`). -/
structure HistEntry where
  correct : Bool
deriving DecidableEq, Repr

/-- A vocabulary entry after schema healing: every field present. -/
structure Entry where
  sentence : String
  note : String
  box : Int
  times_reviewed : Int
  times_correct : Int
  ease : ℚ
  history : List HistEntry
  last_reviewed : Option Int
  next_review : Int
  interval : Int
deriving DecidableEq, Repr

/-- The vocabulary store: insertion-ordered word/entry pairs. -/
abbrev Store := List (String × Entry)

/-- Exact-key lookup, as Python's `word in vocab` / `vocab[word]`. -/
def findEntry : Store → String → Option Entry
  | [], _ => none
  | (w, e) :: rest, word => if w = word then some e else findEntry rest word

/-- In-place update of the entry stored under an exact key, as Python's
`vocab[word][...] = ...` mutation. -/
def updateEntry (v : Store) (word : String) (f : Entry → Entry) : Store :=
  v.map fun p => if p.1 = word then (p.1, f p.2) else p

/-- Python 3 `round`: round half to even. -/
def pyRound (x : ℚ) : Int :=
  if x - ⌊x⌋ < 1/2 then ⌊x⌋
  else if 1/2 < x - ⌊x⌋ then ⌊x⌋ + 1
  else if Even ⌊x⌋ then ⌊x⌋ else ⌊x⌋ + 1

/-- The ease update of `schedule_next_review` (core.py line 198):
`ease = max(1.3, ease + (0.1 - (5 - q) * (0.08 + (5 - q) * 0.02)))`. -/
def newEase (ease : ℚ) (q : Int) : ℚ :=
  max (13/10) (ease + (1/10 - (5 - (q : ℚ)) * (8/100 + (5 - (q : ℚ)) * (2/100))))

/-- The per-entry effect of `schedule_next_review` (core.py lines 188-216),
with `today` the current date as a day number. -/
def scheduleEntry (data : Entry) (rating : Int) (today : Int) : Entry :=
  let q := rating
  let ease := newEase data.ease q
  let interval : Int :=
    if q < 3 then 1
    else if data.interval = 1 then 3
    else pyRound ((data.interval : ℚ) * ease)
  { data with
    ease := ease
    interval := interval
    next_review := today + interval
    box := min 5 (max 1 (data.box + (if 3 ≤ q then 1 else -1))) }

/-- `schedule_next_review` (core.py lines 179-218) as a store transformer:
a missing word is a silent early `return` (no failure value is produced);
there is no rating validation. -/
def schedule_next_review (v : Store) (word : String) (rating : Int)
    (today : Int) : Store :=
  match findEntry v word with
  | none => v
  | some _ => updateEntry v word fun e => scheduleEntry e rating today

/-- Python `str.lower()` (ASCII case folding, character by character). -/
def pyLower (s : String) : String :=
  ⟨s.data.map Char.toLower⟩

/-- `remove_word` (core.py lines 153-163), embedded with its control flow
as written: the loop body examines the first key only; on a match it
deletes that entry, breaks, and falls through to `return False`; on a
mismatch it reaches the misindented `return True` without deleting.
Returns (python return value, resulting store). -/
def remove_word (v : Store) (word : String) : Bool × Store :=
  match v with
  | [] => (false, [])
  | (w, e) :: rest =>
      if pyLower w = pyLower word then (false, rest)
      else (true, (w, e) :: rest)

/-- `edit_word` (core.py lines 165-172): exact-key match; on success the
entry's sentence and note are replaced by the stripped arguments. -/
def edit_word (v : Store) (word newSentence newNote : String) :
    Bool × Store :=
  match findEntry v word with
  | none => (false, v)
  | some _ =>
      (true, updateEntry v word fun e =>
        { e with sentence := newSentence.trim, note := newNote.trim })

/-- The priority score computed for each entry inside `build_study_plan`
(core.py lines 257-286). -/
def priorityScore (today : Int) (data : Entry) : ℚ :=
  let overdue_days : Int := max 0 (today - data.next_review)
  let overdue_factor : ℚ := 1 + (overdue_days : ℚ) * (15/100)
  let difficulty_factor : ℚ := (35/10) / data.ease
  let accuracy : ℚ :=
    if 0 < data.times_reviewed
    then (data.times_correct : ℚ) / (data.times_reviewed : ℚ) else 0
  let accuracy_factor : ℚ := 1 + (1 - accuracy) * (15/10)
  let new_word_factor : ℚ := if data.times_reviewed = 0 then 18/10 else 1
  let recent := data.history.drop (data.history.length - 5)
  let recent_errors : ℕ := (recent.filter fun h => !h.correct).length
  let error_boost : ℚ := 1 + (recent_errors : ℚ) * (3/10)
  overdue_factor * difficulty_factor * accuracy_factor * new_word_factor *
    error_boost

/-- Descending lexicographic comparison on (priority, word) pairs: the
order in which Python's `scored_words.sort(reverse=True)` leaves the
list. -/
def pairGe (a b : ℚ × String) : Prop :=
  b.1 < a.1 ∨ (a.1 = b.1 ∧ b.2 ≤ a.2)

instance : DecidableRel pairGe := fun a b => by
  unfold pairGe
  infer_instance

/-- Insert into a list kept in descending (priority, word) order. -/
def insertDesc (x : ℚ × String) : List (ℚ × String) → List (ℚ × String)
  | [] => [x]
  | y :: ys => if pairGe x y then x :: y :: ys else y :: insertDesc x ys

/-- Stable sort into descending (priority, word) order, the effect of
`scored_words.sort(reverse=True)` (core.py line 290). -/
def sortDesc : List (ℚ × String) → List (ℚ × String)
  | [] => []
  | x :: xs => insertDesc x (sortDesc xs)

/-- Python list slicing `l[:t]`, including the negative-index case. -/
def pySlice (l : List α) (t : Int) : List α :=
  if 0 ≤ t then l.take t.toNat else l.take (l.length - (-t).toNat)

/-- The (priority, word) pairs scored by `build_study_plan`, in store
order. -/
def scoredWords (v : Store) (today : Int) : List (ℚ × String) :=
  v.map fun p => (priorityScore today p.2, p.1)

/-- `build_study_plan` (core.py lines 244-293): score every entry, sort
descending, take the first `target` words. Reads the store only. -/
def build_study_plan (v : Store) (target : Int) (today : Int) :
    List String :=
  (pySlice (sortDesc (scoredWords v today)) target).map Prod.snd

/-- The progress record (progress.json) after load-time defaulting. -/
structure Progress where
  current_streak : Int
  longest_streak : Int
  last_study_date : Option Int
  studied_today : Int
  xp : Int
  total_reviews : Int
  achievements : List String
deriving DecidableEq, Repr

/-- The streak/daily-counter maintenance shared by the non-early-return
paths of `update_streak` (core.py lines 356-362). -/
def streakFinish (p : Progress) (today : Int) : Progress :=
  let p1 :=
    if p.longest_streak < p.current_streak
    then { p with longest_streak := p.current_streak } else p
  { p1 with studied_today := 0, last_study_date := some today }

/-- `update_streak` (core.py lines 339-362): early return when already
counted today, increment on a consecutive day, reset to 1 otherwise. -/
def update_streak (p : Progress) (today : Int) : Progress :=
  match p.last_study_date with
  | some last =>
      if today = last then p
      else if today = last + 1 then
        streakFinish { p with current_streak := p.current_streak + 1 } today
      else
        streakFinish { p with current_streak := 1 } today
  | none => streakFinish { p with current_streak := 1 } today

/-- The fixed achievement table of `check_achievements`
(core.py lines 373-383): identifier, threshold condition, message. -/
def achTable (p : Progress) (total_words : Nat) :
    List (String × Bool × String) :=
  [("XP_100", decide (100 ≤ p.xp), "Earned 100 XP"),
   ("XP_500", decide (500 ≤ p.xp), "Earned 500 XP"),
   ("XP_1000", decide (1000 ≤ p.xp), "Earned 1000 XP"),
   ("Streak_3", decide (3 ≤ p.current_streak), "3-day study streak"),
   ("Streak_7", decide (7 ≤ p.current_streak), "7-day study streak"),
   ("Streak_30", decide (30 ≤ p.current_streak), "30-day study streak"),
   ("Reviews_100", decide (100 ≤ p.total_reviews), "100 reviews completed"),
   ("Reviews_500", decide (500 ≤ p.total_reviews), "500 reviews completed"),
   ("Words_50", decide (50 ≤ total_words), "Added 50 words")]

/-- The loop of `check_achievements` (core.py lines 385-388): for each
table row whose condition holds and whose identifier is not yet unlocked,
append the identifier to the unlocked list and the message to the
result. -/
def achLoop : List (String × Bool × String) → Progress → List String →
    List String × Progress
  | [], p, acc => (acc, p)
  | t :: rest, p, acc =>
      if t.2.1 && !(p.achievements.contains t.1)
      then achLoop rest
        { p with achievements := p.achievements ++ [t.1] } (acc ++ [t.2.2])
      else achLoop rest p acc

/-- `check_achievements` (core.py lines 364-393): returns the messages of
the newly unlocked achievements and the updated progress record. -/
def check_achievements (p : Progress) (total_words : Nat) :
    List String × Progress :=
  achLoop (achTable p total_words) p []

/-- Sample entries used to instantiate theorems with hypotheses. -/
def entryA : Entry :=
  { sentence := "I eat an apple every day", note := "", box := 2,
    times_reviewed := 4, times_correct := 3, ease := 5/2,
    history := [⟨true⟩, ⟨false⟩], last_reviewed := some 10,
    next_review := 12, interval := 5 }

def entryB : Entry :=
  { sentence := "a new word", note := "", box := 1,
    times_reviewed := 0, times_correct := 0, ease := 5/2,
    history := [], last_reviewed := none, next_review := 0, interval := 1 }

/-! ## Basic facts about the embedded operations -/

theorem pyRound_ge (x : ℚ) : x - 1/2 ≤ (pyRound x : ℚ) := by
  have h0 : (⌊x⌋ : ℚ) ≤ x := Int.floor_le x
  have h1 : x < (⌊x⌋ : ℚ) + 1 := Int.lt_floor_add_one x
  unfold pyRound
  split_ifs with ha hb hc <;> push_cast <;> linarith

theorem newEase_ge (ease : ℚ) (q : Int) : 13/10 ≤ newEase ease q :=
  le_max_left _ _

theorem scheduleEntry_ease (e : Entry) (q today : Int) :
    (scheduleEntry e q today).ease = newEase e.ease q := rfl

theorem scheduleEntry_interval (e : Entry) (q today : Int) :
    (scheduleEntry e q today).interval =
      (if q < 3 then 1
       else if e.interval = 1 then 3
       else pyRound ((e.interval : ℚ) * newEase e.ease q)) := rfl

theorem scheduleEntry_box (e : Entry) (q today : Int) :
    (scheduleEntry e q today).box =
      min 5 (max 1 (e.box + (if 3 ≤ q then 1 else -1))) := rfl

theorem scheduleEntry_next (e : Entry) (q today : Int) :
    (scheduleEntry e q today).next_review =
      today + (scheduleEntry e q today).interval := rfl

/-! ## Claim theorems -/

/-- C1: for every entry and rating (in particular every q in {1,2,3,4}),
`schedule` updates the ease factor to exactly
max(1.3, ease + (0.1 - (5-q)*(0.08 + (5-q)*0.02))); consequently the
post-call ease is always at least 1.3 regardless of input ease and
rating. -/
theorem C1_ease_update (e : Entry) (q today : Int) :
    (scheduleEntry e q today).ease =
      max (13/10)
        (e.ease + (1/10 - (5 - (q : ℚ)) * (8/100 + (5 - (q : ℚ)) * (2/100)))) ∧
    (13/10 : ℚ) ≤ (scheduleEntry e q today).ease :=
  ⟨rfl, le_max_left _ _⟩

/-- C2: for every entry with box in [1,5] and every rating q: if q < 3 the
interval becomes 1 and the box decreases by 1 floored at 1; if q ≥ 3 the
interval becomes 3 when the prior interval was 1 and
round(interval * ease') otherwise, and the box increases by 1 capped at 5;
in every case nextReview is set to today plus the new interval. -/
theorem C2_interval_box_next (e : Entry) (q today : Int)
    (hb1 : 1 ≤ e.box) (hb5 : e.box ≤ 5) :
    (q < 3 → (scheduleEntry e q today).interval = 1 ∧
      (scheduleEntry e q today).box = max 1 (e.box - 1)) ∧
    (3 ≤ q → (scheduleEntry e q today).interval =
        (if e.interval = 1 then 3
         else pyRound ((e.interval : ℚ) * (scheduleEntry e q today).ease)) ∧
      (scheduleEntry e q today).box = min 5 (e.box + 1)) ∧
    (scheduleEntry e q today).next_review =
      today + (scheduleEntry e q today).interval := by
  refine ⟨fun hq => ⟨?_, ?_⟩, fun hq => ⟨?_, ?_⟩, scheduleEntry_next e q today⟩
  · rw [scheduleEntry_interval, if_pos hq]
  · rw [scheduleEntry_box]
    rw [if_neg (by omega : ¬ 3 ≤ q)]
    omega
  · rw [scheduleEntry_interval, scheduleEntry_ease, if_neg (by omega : ¬ q < 3)]
  · rw [scheduleEntry_box, if_pos hq]
    omega

/-- C2 witness: rating 1 on a concrete entry with box 2 and interval 5. -/
theorem C2_interval_box_next_witness :
    (scheduleEntry entryA 1 0).interval = 1 ∧
    (scheduleEntry entryA 1 0).box = max 1 (entryA.box - 1) :=
  (C2_interval_box_next entryA 1 0 (by decide) (by decide)).1 (by decide)

/-- C6: for every entry and rating q ≥ 3: when q = 4 the post-call ease is
at least the pre-call ease, and whenever the prior interval is strictly
greater than 1 the new interval round(interval * ease') is strictly
greater than the prior interval. -/
theorem C6_growth (e : Entry) (q today : Int) (hq : 3 ≤ q) :
    (q = 4 → e.ease ≤ (scheduleEntry e q today).ease) ∧
    (1 < e.interval → e.interval < (scheduleEntry e q today).interval) := by
  constructor
  · intro h4
    subst h4
    rw [scheduleEntry_ease]
    have h : newEase e.ease 4 = max (13/10) e.ease := by
      unfold newEase
      norm_num
    rw [h]
    exact le_max_right _ _
  · intro hi
    rw [scheduleEntry_interval, if_neg (by omega : ¬ q < 3),
      if_neg (by omega : ¬ e.interval = 1)]
    have hE : (13/10 : ℚ) ≤ newEase e.ease q := newEase_ge e.ease q
    have hI : (2 : ℚ) ≤ (e.interval : ℚ) := by exact_mod_cast hi
    have hIpos : (0 : ℚ) ≤ (e.interval : ℚ) := by linarith
    have h1 : (e.interval : ℚ) * (13/10) ≤
        (e.interval : ℚ) * newEase e.ease q :=
      mul_le_mul_of_nonneg_left hE hIpos
    have h2 := pyRound_ge ((e.interval : ℚ) * newEase e.ease q)
    have h3 : (e.interval : ℚ) <
        (pyRound ((e.interval : ℚ) * newEase e.ease q) : ℚ) := by linarith
    exact_mod_cast h3

/-- C6 witness: rating 4, prior ease 2.5, prior interval 5. -/
theorem C6_growth_witness :
    entryA.interval < (scheduleEntry entryA 4 0).interval :=
  (C6_growth entryA 4 0 (by decide)).2 (by decide)

/-- C7 as stated is false: `schedule_next_review` performs no rating
validation, so a rating of 5 on a stored word is processed by the
ordinary update formulas and mutates the store rather than producing an
InvalidRating failure with the store unchanged. -/
theorem C7_counterexample :
    schedule_next_review [("apple", entryA)] "apple" 5 20 ≠
      [("apple", entryA)] := by decide

/-- C7 amended: a call for a word not in the store is a silent no-op — the
store is returned unchanged and no failure value of any kind is produced
(the Python function body is an early bare `return`); ratings are never
validated. -/
theorem C7_unknown_word_silent (v : Store) (w : String) (q today : Int)
    (h : findEntry v w = none) :
    schedule_next_review v w q today = v := by
  unfold schedule_next_review
  rw [h]

/-- C7 witness: scheduling an unknown word with an out-of-range rating. -/
theorem C7_unknown_word_silent_witness :
    schedule_next_review [("apple", entryA)] "pear" 9 0 =
      [("apple", entryA)] :=
  C7_unknown_word_silent [("apple", entryA)] "pear" 9 0 (by decide)

/-- C4 is a code bug: `remove_word` only ever examines the first stored
key. When that key does not match the argument it returns True (removed)
without deleting anything; when it does match, the entry is deleted but
the function falls through to `return False`. Both behaviors are shown
here on one-entry stores. -/
theorem C4_remove_word_bug :
    remove_word [("apple", entryA)] "banana" = (true, [("apple", entryA)]) ∧
    remove_word [("apple", entryA)] "APPLE" = (false, []) := by
  constructor
  · simp [remove_word, show ¬ pyLower "apple" = pyLower "banana" by decide]
  · simp [remove_word, show pyLower "apple" = pyLower "APPLE" by decide]

/-! ## Sorting facts for the study-plan builder -/

theorem pairGe_total (a b : ℚ × String) : pairGe a b ∨ pairGe b a := by
  rcases lt_trichotomy a.1 b.1 with h | h | h
  · exact Or.inr (Or.inl h)
  · rcases le_total a.2 b.2 with h2 | h2
    · exact Or.inr (Or.inr ⟨h.symm, h2⟩)
    · exact Or.inl (Or.inr ⟨h, h2⟩)
  · exact Or.inl (Or.inl h)

theorem pairGe_trans {a b c : ℚ × String}
    (hab : pairGe a b) (hbc : pairGe b c) : pairGe a c := by
  rcases hab with h1 | ⟨h1, h1w⟩ <;> rcases hbc with h2 | ⟨h2, h2w⟩
  · exact Or.inl (lt_trans h2 h1)
  · exact Or.inl (h2 ▸ h1)
  · exact Or.inl (h1 ▸ h2)
  · exact Or.inr ⟨h1.trans h2, le_trans h2w h1w⟩

theorem mem_insertDesc {x y : ℚ × String} {l : List (ℚ × String)} :
    y ∈ insertDesc x l ↔ y = x ∨ y ∈ l := by
  induction l with
  | nil => simp [insertDesc]
  | cons z zs ih =>
    rw [insertDesc]
    split_ifs with h
    · simp [List.mem_cons]
    · simp only [List.mem_cons, ih]
      tauto

theorem insertDesc_perm (x : ℚ × String) (l : List (ℚ × String)) :
    List.Perm (insertDesc x l) (x :: l) := by
  induction l with
  | nil => simp [insertDesc]
  | cons z zs ih =>
    rw [insertDesc]
    split_ifs with h
    · exact List.Perm.refl _
    · exact List.Perm.trans (List.Perm.cons z ih) (List.Perm.swap x z zs)

theorem pairwise_insertDesc {x : ℚ × String} {l : List (ℚ × String)}
    (hl : l.Pairwise pairGe) : (insertDesc x l).Pairwise pairGe := by
  induction l with
  | nil => simp [insertDesc, List.Pairwise]
  | cons z zs ih =>
    rw [List.pairwise_cons] at hl
    obtain ⟨hz, hzs⟩ := hl
    rw [insertDesc]
    split_ifs with h
    · refine List.Pairwise.cons ?_ (List.Pairwise.cons hz hzs)
      intro y hy
      rcases List.mem_cons.mp hy with rfl | hy'
      · exact h
      · exact pairGe_trans h (hz y hy')
    · refine List.Pairwise.cons ?_ (ih hzs)
      intro y hy
      rcases mem_insertDesc.mp hy with hyx | hy'
      · rw [hyx]
        exact (pairGe_total x z).resolve_left h
      · exact hz y hy'

theorem sortDesc_pairwise (l : List (ℚ × String)) :
    (sortDesc l).Pairwise pairGe := by
  induction l with
  | nil => simp [sortDesc, List.Pairwise]
  | cons x xs ih => exact pairwise_insertDesc ih

theorem sortDesc_perm (l : List (ℚ × String)) : List.Perm (sortDesc l) l := by
  induction l with
  | nil => exact List.Perm.refl _
  | cons x xs ih =>
    exact List.Perm.trans (insertDesc_perm x (sortDesc xs))
      (List.Perm.cons x ih)

/-- C3: for every entry, the study-plan priority is the product of the
five factors exactly as specified; the scored list is sorted by priority
descending (as a permutation of the per-entry scores); the plan is the
first `target` words of that order; and for target ≥ 0 the plan length is
at most min(target, number of entries). The builder reads the store and
never writes it (it is a pure function of the store and date here). -/
theorem C3_build_plan (v : Store) (target today : Int) (ht : 0 ≤ target) :
    (∀ e : Entry, priorityScore today e =
      (1 + ((max 0 (today - e.next_review) : Int) : ℚ) * (15/100)) *
      ((35/10) / e.ease) *
      (1 + (1 - (if 0 < e.times_reviewed
          then (e.times_correct : ℚ) / (e.times_reviewed : ℚ) else 0)) *
        (15/10)) *
      (if e.times_reviewed = 0 then 18/10 else 1) *
      (1 + (((e.history.drop (e.history.length - 5)).filter
          fun h => !h.correct).length : ℚ) * (3/10))) ∧
    (sortDesc (scoredWords v today)).Pairwise (fun a b => b.1 ≤ a.1) ∧
    List.Perm (sortDesc (scoredWords v today)) (scoredWords v today) ∧
    build_study_plan v target today =
      ((sortDesc (scoredWords v today)).take target.toNat).map Prod.snd ∧
    (build_study_plan v target today).length ≤ min target.toNat v.length := by
  refine ⟨fun e => rfl, ?_, sortDesc_perm _, ?_, ?_⟩
  · exact (sortDesc_pairwise _).imp fun hab => by
      rcases hab with h | ⟨h, _⟩
      · exact le_of_lt h
      · exact le_of_eq h.symm
  · unfold build_study_plan pySlice
    rw [if_pos ht]
  · unfold build_study_plan pySlice
    rw [if_pos ht]
    rw [List.length_map, List.length_take]
    have hlen : (sortDesc (scoredWords v today)).length = v.length := by
      rw [(sortDesc_perm (scoredWords v today)).length_eq]
      exact List.length_map v _
    rw [hlen]

/-- C3 witness: a two-entry store with target 1. -/
theorem C3_build_plan_witness :
    (build_study_plan [("apple", entryA), ("new", entryB)] 1 0).length ≤
      min (Int.toNat 1) [("apple", entryA), ("new", entryB)].length :=
  (C3_build_plan [("apple", entryA), ("new", entryB)] 1 0
    (by decide)).2.2.2.2

/-- C10: the sort underlying `build_study_plan` orders the scored
(priority, word) pairs in fully descending lexicographic order — in a tie
on priority the word that is lexicographically greater comes first — and
the plan is exactly the first `target` words of that order, so the plan
is a deterministic function of the store contents and the date. -/
theorem C10_tie_break (v : Store) (target today : Int) :
    (sortDesc (scoredWords v today)).Pairwise
      (fun a b => b.1 < a.1 ∨ (a.1 = b.1 ∧ b.2 ≤ a.2)) ∧
    build_study_plan v target today =
      (pySlice (sortDesc (scoredWords v today)) target).map Prod.snd :=
  ⟨sortDesc_pairwise _, rfl⟩

/-! ## Streak facts -/

theorem streakFinish_current (p : Progress) (today : Int) :
    (streakFinish p today).current_streak = p.current_streak := by
  unfold streakFinish
  split_ifs <;> rfl

theorem streakFinish_longest (p : Progress) (today : Int) :
    (streakFinish p today).longest_streak =
      max p.longest_streak p.current_streak := by
  unfold streakFinish
  split_ifs with h <;> simp <;> omega

/-- C5: `update_streak` is a state machine over
(lastStudyDate, currentStreak): a call on the already-counted day leaves
the whole record unchanged; a call on the day after the recorded one
increments the streak; any other call (no prior date or a gap) resets the
streak to 1; afterwards longestStreak equals max(longestStreak,
currentStreak), so longestStreak >= currentStreak is preserved. -/
theorem C5_streak_machine (p : Progress) (today : Int)
    (hinv : p.current_streak ≤ p.longest_streak) :
    (p.last_study_date = some today → update_streak p today = p) ∧
    (∀ last, p.last_study_date = some last → today ≠ last →
      (update_streak p today).current_streak =
        (if today = last + 1 then p.current_streak + 1 else 1)) ∧
    (p.last_study_date = none →
      (update_streak p today).current_streak = 1) ∧
    (update_streak p today).longest_streak =
      max p.longest_streak (update_streak p today).current_streak /\
    (update_streak p today).current_streak ≤
      (update_streak p today).longest_streak := by
  refine ⟨?_, ?_, ?_, ?_, ?_⟩
  · intro h
    simp [update_streak, h]
  · intro last hl hne
    simp only [update_streak, hl]
    rw [if_neg hne]
    split_ifs with h1 <;>
      simp [streakFinish_current, h1]
  · intro h
    simp [update_streak, h, streakFinish_current]
  · cases hls : p.last_study_date with
    | none =>
      simp [update_streak, hls, streakFinish_current, streakFinish_longest]
    | some last =>
      by_cases h1 : today = last
      · simp only [update_streak, hls, if_pos h1]
        omega
      · simp only [update_streak, hls, if_neg h1]
        split_ifs with h2 <;>
          simp [streakFinish_current, streakFinish_longest]
  · cases hls : p.last_study_date with
    | none =>
      simp only [update_streak, hls]
      rw [streakFinish_current, streakFinish_longest]
      simp
    | some last =>
      by_cases h1 : today = last
      · simp only [update_streak, hls, if_pos h1]
        exact hinv
      · simp only [update_streak, hls, if_neg h1]
        split_ifs with h2 <;>
          (rw [streakFinish_current, streakFinish_longest]; simp)

/-- C5 witness: consecutive-day call increments the streak. -/
theorem C5_streak_machine_witness :
    (update_streak
      { current_streak := 2, longest_streak := 3,
        last_study_date := some 10, studied_today := 4, xp := 0,
        total_reviews := 0, achievements := [] } 11).current_streak = 3 := by
  have h := (C5_streak_machine
    { current_streak := 2, longest_streak := 3, last_study_date := some 10,
      studied_today := 4, xp := 0, total_reviews := 0, achievements := [] }
    11 (by decide)).2.1 10 rfl (by decide)
  simpa using h

/-! ## Edit-word facts -/

theorem updateEntry_cons (w : String) (e : Entry) (rest : Store)
    (word : String) (f : Entry → Entry) :
    updateEntry ((w, e) :: rest) word f =
      (if w = word then (w, f e) else (w, e)) :: updateEntry rest word f := by
  simp only [updateEntry, List.map_cons]

theorem findEntry_updateEntry (v : Store) (word w' : String)
    (f : Entry → Entry) :
    findEntry (updateEntry v word f) w' =
      (if w' = word then (findEntry v w').map f else findEntry v w') := by
  induction v with
  | nil => simp [updateEntry, findEntry]
  | cons p rest ih =>
    obtain ⟨w, e⟩ := p
    rw [updateEntry_cons]
    by_cases hww : w = word
    · rw [if_pos hww]
      subst hww
      by_cases hw' : w' = w
      · subst hw'
        simp [findEntry]
      · simp [findEntry, hw', (Ne.symm hw' : ¬ w = w'), ih]
    · rw [if_neg hww]
      by_cases hw' : w = w'
      · subst hw'
        simp [findEntry, hww]
      · simp [findEntry, hw', ih]

theorem keys_updateEntry (v : Store) (word : String) (f : Entry → Entry) :
    (updateEntry v word f).map Prod.fst = v.map Prod.fst := by
  induction v with
  | nil => rfl
  | cons p rest ih =>
    obtain ⟨w, e⟩ := p
    rw [updateEntry_cons, List.map_cons, List.map_cons, ih]
    by_cases h : w = word <;> simp [h]

/-- C9: for every stored word, `edit_word` succeeds, replaces exactly the
sentence and note fields of that entry (with the trimmed arguments) while
every scheduling field keeps its old value, leaves the lookup result of
every other word unchanged, and preserves the key sequence of the
store. -/
theorem C9_edit_frame (v : Store) (word s n : String) (e : Entry)
    (h : findEntry v word = some e) :
    (edit_word v word s n).1 = true ∧
    findEntry (edit_word v word s n).2 word =
      some { e with sentence := s.trim, note := n.trim } ∧
    (∀ w', w' ≠ word →
      findEntry (edit_word v word s n).2 w' = findEntry v w') ∧
    ((edit_word v word s n).2).map Prod.fst = v.map Prod.fst := by
  simp only [edit_word, h]
  refine ⟨trivial, ?_, ?_, keys_updateEntry v word _⟩
  · rw [findEntry_updateEntry, if_pos rfl, h]
    rfl
  · intro w' hw'
    rw [findEntry_updateEntry, if_neg hw']

/-- C9 witness: editing a one-entry store. -/
theorem C9_edit_frame_witness :
    (edit_word [("apple", entryA)] "apple" " s " "n").1 = true :=
  (C9_edit_frame [("apple", entryA)] "apple" " s " "n" entryA rfl).1

/-! ## Achievement facts -/

theorem achLoop_spec (tbl : List (String × Bool × String)) (p : Progress)
    (acc : List String) (hnd : (tbl.map fun t => t.1).Nodup) :
    achLoop tbl p acc =
      (acc ++ (tbl.filter fun t =>
          t.2.1 && !(p.achievements.contains t.1)).map fun t => t.2.2,
       { p with achievements := p.achievements ++
          (tbl.filter fun t =>
            t.2.1 && !(p.achievements.contains t.1)).map fun t => t.1 }) := by
  induction tbl generalizing p acc with
  | nil => simp [achLoop]
  | cons t rest ih =>
    rw [List.map_cons, List.nodup_cons] at hnd
    obtain ⟨hni, hnd'⟩ := hnd
    have hfc : ∀ u ∈ rest,
        (u.2.1 && !((p.achievements ++ [t.1]).contains u.1)) =
          (u.2.1 && !(p.achievements.contains u.1)) := by
      intro u hu
      have hne : ¬ (u.1 = t.1) := by
        intro hc
        exact hni (hc ▸ List.mem_map_of_mem (fun t => t.1) hu)
      simp [List.contains, List.elem_eq_mem, hne]
    by_cases hc : (t.2.1 && !(p.achievements.contains t.1)) = true
    · rw [achLoop, if_pos hc, ih _ _ hnd']
      have hsplit : List.filter
          (fun u => u.2.1 && !(p.achievements.contains u.1)) (t :: rest) =
          t :: List.filter
            (fun u => u.2.1 && !(p.achievements.contains u.1)) rest :=
        List.filter_cons_of_pos hc
      rw [hsplit, List.filter_congr hfc]
      simp [List.append_assoc]
    · rw [achLoop, if_neg hc, ih _ _ hnd']
      have hsplit : List.filter
          (fun u => u.2.1 && !(p.achievements.contains u.1)) (t :: rest) =
          List.filter
            (fun u => u.2.1 && !(p.achievements.contains u.1)) rest :=
        List.filter_cons_of_neg hc
      rw [hsplit]

/-- C8: `check_achievements` returns exactly the messages of the
achievements whose threshold condition holds and whose identifier is not
already unlocked (an already-unlocked achievement is never re-reported),
in the fixed table order, and appends exactly those identifiers to the
unlocked list; nothing else in the progress record changes. -/
theorem C8_achievements (p : Progress) (total_words : Nat) :
    (check_achievements p total_words).1 =
      ((achTable p total_words).filter fun t =>
        t.2.1 && !(p.achievements.contains t.1)).map (fun t => t.2.2) ∧
    (check_achievements p total_words).2 =
      { p with achievements := p.achievements ++
        ((achTable p total_words).filter fun t =>
          t.2.1 && !(p.achievements.contains t.1)).map (fun t => t.1) } := by
  have hnd : ((achTable p total_words).map fun t => t.1).Nodup := by
    simp [achTable]
  have h := achLoop_spec (achTable p total_words) p [] hnd
  rw [check_achievements, h]
  exact ⟨by simp, rfl⟩

end Vocab
